import Mathlib

set_option autoImplicit false

/-
Verification of the product-comparison service core: the JSON-backed catalog
repository (src/infrastructure/repositories/json_product_repository.py), the
Product domain model (src/domain/models/product.py) and the comparison
service (src/domain/services/product_service.py), embedded shallowly.
Identifiers are the 128-bit integer values of UUIDs; Python exceptions appear
as Except / Option error results; Python dicts are association lists with
unique keys.
-/

namespace ProductComparison

/-- JSON values as the loader observes them after json.load. Numeric literals
are split into integers and non-integer decimals: fnum m s denotes the
literal m / 10 ^ s, understood to be the shortest decimal form of its binary
float value (which is how str() renders the float back). -/
inductive Json where
  | null
  | bool (b : Bool)
  | int (n : Int)
  | fnum (m : Int) (s : Nat)
  | str (s : String)
  | arr (xs : List Json)
  | obj (fields : List (String × Json))

/-- Exact decimal number mant / 10 ^ scale, mirroring a Python Decimal
coefficient and exponent as produced by Decimal(string) on a plain decimal
literal; scale is the number of fractional digits. -/
structure Dec where
  mant : Int
  scale : Nat
deriving DecidableEq

/-- Value of a run of decimal digits; fails on any non-digit character. -/
def digitsVal : List Char → Nat → Option Nat
  | [], acc => some acc
  | c :: cs, acc =>
      if c.isDigit then digitsVal cs (acc * 10 + (c.toNat - 48)) else none

/-- Split a character list at the first decimal point. -/
def splitOnDot : List Char → List Char → (List Char × List Char)
  | [], acc => (acc.reverse, [])
  | '.' :: cs, acc => (acc.reverse, cs)
  | c :: cs, acc => splitOnDot cs (c :: acc)

/-- Modelled subset of Python Decimal(string) construction: an optional sign
followed by decimal digits containing at most one point, with at least one
digit in total. Exponent forms, NaN, infinity and surrounding whitespace are
outside the scope of this model; they occur in none of the inputs considered
here. -/
def pyDecimalParse (s : String) : Option Dec :=
  let body : List Char :=
    match s.data with
    | '-' :: cs => cs
    | '+' :: cs => cs
    | cs => cs
  let neg : Bool :=
    match s.data with
    | '-' :: _ => true
    | _ => false
  match splitOnDot body [] with
  | (ip, fp) =>
      if ip.length + fp.length = 0 then none
      else
        match digitsVal (ip ++ fp) 0 with
        | none => none
        | some v => some ⟨if neg then -(v : Int) else (v : Int), fp.length⟩

/-- Value of one hexadecimal digit. -/
def hexVal (c : Char) : Nat :=
  if c.isDigit then c.toNat - 48
  else if 'a' ≤ c ∧ c ≤ 'f' then c.toNat - 87
  else if 'A' ≤ c ∧ c ≤ 'F' then c.toNat - 55
  else 0

/-- Test for a hexadecimal digit character. -/
def isHexChar (c : Char) : Bool :=
  c.isDigit || (decide ('a' ≤ c) && decide (c ≤ 'f'))
    || (decide ('A' ≤ c) && decide (c ≤ 'F'))

/-- Modelled subset of Python UUID(hex) construction: hyphens are removed and
the remaining text must be exactly 32 hexadecimal digits, read as the 128-bit
integer value. Brace and urn wrappers accepted by CPython are out of scope. -/
def parseUUID (s : String) : Option Nat :=
  let cs := s.data.filter (fun c => c ≠ '-')
  if cs.length = 32 ∧ cs.all (fun c => isHexChar c) then
    some (cs.foldl (fun acc c => acc * 16 + hexVal c) 0)
  else none

/-- Characters this model allows in the host of a URL: ASCII letters,
digits, dots and hyphens (an ASCII domain). Userinfo, ports, IP literals,
percent-encoding and non-ASCII hosts are outside the scope of the model. -/
def isHostChar (c : Char) : Bool :=
  c.isAlpha || c.isDigit || c = '.' || c = '-'

/-- Characters this model allows after the host of a URL, on which the URL
parser used by the pydantic library acts as the identity: ASCII letters,
digits, slash, hyphen, underscore, dot and tilde. Characters the parser
percent-encodes or rewrites are outside the scope of the model. -/
def isPathChar (c : Char) : Bool :=
  c.isAlpha || c.isDigit || c = '/' || c = '-' || c = '_' || c = '.'
    || c = '~'

/-- Split a character list at the first slash, keeping the slash in the
second component. -/
def splitAtSlash : List Char → List Char → (List Char × List Char)
  | [], acc => (acc.reverse, [])
  | '/' :: cs, acc => (acc.reverse, '/' :: cs)
  | c :: cs, acc => splitAtSlash cs (c :: acc)

/-- Validation and normalization of the authority and path of a URL whose
scheme prefix has been removed: the host must be a nonempty ASCII domain and
is lowercased; an empty path becomes the single slash, a nonempty path is
kept verbatim. -/
def normHostPath (scheme : String) (rest : List Char) : Option String :=
  match splitAtSlash rest [] with
  | (host, path) =>
      if host ≠ [] ∧ host.all isHostChar ∧ path.all isPathChar then
        some ⟨scheme.data ++ host.map Char.toLower
          ++ (if path = [] then ['/'] else path)⟩
      else none

/-- Modelled from the pydantic library HttpUrl type, which validates with a
WHATWG-style parser and stores the URL in normalized form: the value must be
an absolute http or https URL, and reading the field back yields the
normalized string, with the host lowercased and a bare authority given the
path slash (for example https://X is stored as https://x/). The model
covers lowercase schemes, ASCII domain hosts without userinfo or port, and
paths the parser keeps verbatim; URLs outside this scope are not accepted by
the model. -/
def normalizeHttpUrl (s : String) : Option String :=
  if "http://".data.isPrefixOf s.data then
    normHostPath "http://" (s.data.drop 7)
  else if "https://".data.isPrefixOf s.data then
    normHostPath "https://" (s.data.drop 8)
  else none

/-- Uppercase expansion of one character under Python str.upper, which uses
the full Unicode case mapping and may expand one character to several: ASCII
lowercase letters map to the corresponding uppercase letter, the sharp s
expands to SS, and the other characters in the scope of this model (ASCII
digits, uppercase letters and punctuation) are unchanged. Characters with
further non-trivial Unicode case mappings are outside the scope of the
model. -/
def pyUpperChar (c : Char) : List Char :=
  if c = 'ß' then ['S', 'S'] else [c.toUpper]

/-- Uppercase expansion of a character list. -/
def pyUpperList : List Char → List Char
  | [] => []
  | c :: cs => pyUpperChar c ++ pyUpperList cs

/-- Python str.upper: the concatenated per-character expansions. It is not
length-preserving: a three-character string may uppercase to six
characters. -/
def pyUpper (s : String) : String := ⟨pyUpperList s.data⟩

/-- Domain model Product (src/domain/models/product.py). The id field holds
the 128-bit UUID value; price is an exact decimal; rating holds the exact
rational value of the float that pydantic stored (every rating in scope is
exactly representable); specifications keeps the fields of the JSON object. -/
structure Product where
  id : Nat
  name : String
  image_url : String
  description : String
  price : Dec
  rating : Rat
  specifications : List (String × Json)
  currency : String

/-- Keyword arguments of the call Product(**product_data) made by the loader:
each field is the raw JSON value found in the record, except price, which the
loader has already replaced by a Decimal whenever the key was present. -/
structure ProductKwargs where
  id : Option Json
  name : Option Json
  image_url : Option Json
  description : Option Json
  price : Option Dec
  rating : Option Json
  specifications : Option Json
  currency : Option Json

/-- Validation of the id field: absent means default_factory uuid4, modelled
by the supplied fresh value; a string is parsed as a UUID; any other type is
rejected. -/
def validId (gen : Nat) (v : Option Json) : Option Nat :=
  match v with
  | none => some gen
  | some (.str s) => parseUUID s
  | some _ => none

/-- Validation of the name field: a string of length 1 to 200. -/
def validName (v : Option Json) : Option String :=
  match v with
  | some (.str s) => if 1 ≤ s.length ∧ s.length ≤ 200 then some s else none
  | _ => none

/-- Validation of the image_url field: a string accepted by HttpUrl, stored
in its normalized form. -/
def validUrl (v : Option Json) : Option String :=
  match v with
  | some (.str s) => normalizeHttpUrl s
  | _ => none

/-- Validation of the description field: a string of length 1 to 2000. -/
def validDescription (v : Option Json) : Option String :=
  match v with
  | some (.str s) => if 1 ≤ s.length ∧ s.length ≤ 2000 then some s else none
  | _ => none

/-- Validation of the price field: required, strictly positive, and with at
most two decimal places (the pydantic decimal_places bound is a maximum). -/
def validPrice (v : Option Dec) : Option Dec :=
  match v with
  | some d => if 0 < d.mant ∧ d.scale ≤ 2 then some d else none
  | none => none

/-- Exact rational value of a decimal. -/
def decToRat (d : Dec) : Rat := (d.mant : Rat) / (10 : Rat) ^ d.scale

/-- Validation of the rating field, a float bounded to the interval 0 to 5:
integers and float literals coerce, numeric strings coerce in lax mode, and
other types are rejected. -/
def validRating (v : Option Json) : Option Rat :=
  match v with
  | some (.int n) => if 0 ≤ n ∧ n ≤ 5 then some (n : Rat) else none
  | some (.fnum m s) =>
      if 0 ≤ decToRat ⟨m, s⟩ ∧ decToRat ⟨m, s⟩ ≤ 5 then some (decToRat ⟨m, s⟩)
      else none
  | some (.str s) =>
      match pyDecimalParse s with
      | some d =>
          if 0 ≤ decToRat d ∧ decToRat d ≤ 5 then some (decToRat d) else none
      | none => none
  | _ => none

/-- Validation of the specifications field: an object, defaulting to the
empty mapping when absent. -/
def validSpecs (v : Option Json) : Option (List (String × Json)) :=
  match v with
  | none => some []
  | some (.obj fs) => some fs
  | some _ => none

/-- Validation of the currency field: defaults to USD when absent; otherwise
a string of length exactly 3, uppercased after the length check by the field
validator. Only the input length is constrained: the characters need not be
letters, and the stored uppercase form may be longer than 3 characters. -/
def validCurrency (v : Option Json) : Option String :=
  match v with
  | none => some "USD"
  | some (.str s) => if s.length = 3 then some (pyUpper s) else none
  | some _ => none

/-- Construction Product(**product_data): pydantic validates every field and
either returns the record or raises ValidationError, modelled by none. The
gen argument stands for the uuid4() value drawn when the record has no id. -/
def mkProduct (gen : Nat) (kw : ProductKwargs) : Option Product :=
  match validId gen kw.id, validName kw.name, validUrl kw.image_url,
      validDescription kw.description, validPrice kw.price,
      validRating kw.rating, validSpecs kw.specifications,
      validCurrency kw.currency with
  | some i, some n, some u, some d, some pr, some r, some sp, some c =>
      some ⟨i, n, u, d, pr, r, sp, c⟩
  | _, _, _, _, _, _, _, _ => none

/-- Lookup in a JSON object as Python builds the dict: a later duplicate key
overwrites an earlier one. -/
def jlookup (fields : List (String × Json)) (k : String) : Option Json :=
  (fields.reverse.find? (fun kv => kv.1 == k)).map (fun kv => kv.2)

/-- Conversion Decimal(str(value)) applied by the loader to a raw price
value: strings parse by the decimal grammar; integers print exactly; decimal
float literals print back as themselves (shortest-repr scope, see Json); the
str() form of any other value is non-numeric text, so the conversion raises
(none). -/
def jsonToDec (v : Json) : Option Dec :=
  match v with
  | .str s => pyDecimalParse s
  | .int n => some ⟨n, 0⟩
  | .fnum m s => some ⟨m, s⟩
  | _ => none

/-- Outcome of processing one element of the products array: ok inserts the
product; invalid is a pydantic ValidationError, which the loader logs and
skips; abort is any other exception, which escapes the per-record handler
and fails the whole load as a RepositoryException. -/
inductive ItemResult where
  | abort
  | invalid
  | ok (p : Product)

/-- Processing of one products-array element (json_product_repository.py
lines 91 to 106): a non-object element raises a TypeError (abort); when a
price key is present its value goes through Decimal(str(value)), whose
failure is not a ValidationError and therefore aborts; then the call
Product(**product_data) either succeeds or raises ValidationError (skip). -/
def load_item (gen : Nat) (j : Json) : ItemResult :=
  match j with
  | .obj fields =>
      match jlookup fields "price" with
      | some v =>
          match jsonToDec v with
          | none => .abort
          | some d =>
              match mkProduct gen ⟨jlookup fields "id", jlookup fields "name",
                  jlookup fields "image_url", jlookup fields "description",
                  some d, jlookup fields "rating",
                  jlookup fields "specifications",
                  jlookup fields "currency"⟩ with
              | some p => .ok p
              | none => .invalid
      | none =>
          match mkProduct gen ⟨jlookup fields "id", jlookup fields "name",
              jlookup fields "image_url", jlookup fields "description",
              none, jlookup fields "rating", jlookup fields "specifications",
              jlookup fields "currency"⟩ with
          | some p => .ok p
          | none => .invalid
  | _ => .abort

/-- Error kinds raised by repository construction: storeUnavailable is
RepositoryException (missing file, JSON decode failure, or any unexpected
exception); invalidData is InvalidProductDataException (wrong top-level
shape). -/
inductive LoadError where
  | storeUnavailable
  | invalidData
deriving DecidableEq

/-- In-memory index _products: a Python dict modelled as an association list
whose keys are unique by construction. -/
abbrev Store := List (Nat × Product)

/-- Dict read: first entry with the key (keys are unique). -/
def dictGet (s : Store) (k : Nat) : Option Product :=
  match s with
  | [] => none
  | kv :: rest => if kv.1 = k then some kv.2 else dictGet rest k

/-- Dict assignment: overwrite in place when the key exists, else append. -/
def dictInsert (s : Store) (k : Nat) (v : Product) : Store :=
  match s with
  | [] => [(k, v)]
  | kv :: rest => if kv.1 = k then (k, v) :: rest else kv :: dictInsert rest k v

/-- Per-record loop of _load_products; idx tracks the enumerate index so that
gen idx supplies the uuid4() draw for a record that carries no id. -/
def insertItems (gen : Nat → Nat) : Nat → List Json → Store → Except LoadError Store
  | _, [], acc => .ok acc
  | idx, j :: rest, acc =>
      match load_item (gen idx) j with
      | .abort => .error .storeUnavailable
      | .invalid => insertItems gen (idx + 1) rest acc
      | .ok p => insertItems gen (idx + 1) rest (dictInsert acc p.id p)

/-- Backing data source as the loader observes it: the file may be absent,
present but not parseable as JSON, or parsed to a JSON value. -/
inductive Source where
  | absent
  | unparsable
  | parsed (data : Json)

/-- Embedding of JsonProductRepository._load_products
(json_product_repository.py lines 58 to 121): an absent file and a JSON
decode failure raise RepositoryException; a top-level value that is not an
object with a products key, or whose products value is not an array, raises
InvalidProductDataException; otherwise the elements are processed in order,
building the id-keyed index. -/
def load_products (src : Source) (gen : Nat → Nat) : Except LoadError Store :=
  match src with
  | .absent => .error .storeUnavailable
  | .unparsable => .error .storeUnavailable
  | .parsed data =>
      match data with
      | .obj fields =>
          match jlookup fields "products" with
          | some (.arr items) => insertItems gen 0 items []
          | some _ => .error .invalidData
          | none => .error .invalidData
      | _ => .error .invalidData

/-- Embedding of JsonProductRepository.find_by_ids (lines 143 to 168): for
each requested id in order, append the stored product when present. A model
instance is always truthy in Python, so the check keeps exactly the present
ids. -/
def find_by_ids (store : Store) (product_ids : List Nat) : List Product :=
  product_ids.filterMap (fun i => dictGet store i)

/-- Errors raised by the comparison service: invalidRequest is ValueError;
notFound is ProductNotFoundException, carrying the missing identifiers in
the order in which the code joins their string forms into the message. -/
inductive ServiceError where
  | invalidRequest (msg : String)
  | notFound (missing : List Nat)

/-- CPython hash of a nonnegative int: reduction modulo the Mersenne prime
2 ^ 61 - 1. A UUID hashes as the hash of its 128-bit int. -/
def pyHash (n : Nat) : Nat := n % (2 ^ 61 - 1)

/-- Table slot of an element in the 8-entry table of a small CPython set. -/
def pySlot (n : Nat) : Nat := pyHash n % 8

/-- Iteration order of the CPython set difference set(xs) - other: the
distinct elements of xs that are not in other, enumerated by ascending table
slot. The order is exact for result sets of at most four elements whose
slots are distinct (no probing, no resize), which covers every concrete
instance below; the membership of the result is exact unconditionally. -/
def pySetDiffList (xs : List Nat) (other : List Nat) : List Nat :=
  List.insertionSort (fun a b => pySlot a ≤ pySlot b)
    (xs.dedup.filter (fun i => ! other.contains i))

/-- Dict comprehension keying a product list by id, later entries winning. -/
def productDict (products : List Product) : Store :=
  products.foldl (fun acc p => dictInsert acc p.id p) []

/-- Embedding of ProductService.get_products_for_comparison
(product_service.py lines 67 to 115), with the repository port abstracted as
the function the service calls. Raised exceptions appear as Except.error. In
the success branch the preceding missing-check guarantees that every dict
lookup succeeds, so filterMap agrees with the Python indexing. -/
def get_products_for_comparison (repo : List Nat → List Product)
    (product_ids : List Nat) : Except ServiceError (List Product) :=
  if product_ids = [] then
    .error (.invalidRequest "At least one product ID must be provided")
  else if product_ids.length ≠ product_ids.dedup.length then
    .error (.invalidRequest "Product IDs must be unique")
  else
    let products := repo product_ids
    let found_ids := products.map (fun p => p.id)
    let missing_ids := pySetDiffList product_ids found_ids
    if missing_ids ≠ [] then .error (.notFound missing_ids)
    else .ok (product_ids.filterMap (fun pid => dictGet (productDict products) pid))

/-- Well-formedness that every store built by the loader enjoys: keys are
unique and each entry is stored under the id of its own product. -/
def StoreWF (store : Store) : Prop :=
  (store.map Prod.fst).Nodup ∧ ∀ kv ∈ store, (kv.2).id = kv.1

/-- Last product of the list whose id equals the key; the value a dict
comprehension keyed by id ends up storing. -/
def lastMatch (ps : List Product) (k : Nat) : Option Product :=
  match ps with
  | [] => none
  | p :: rest =>
      match lastMatch rest k with
      | some q => some q
      | none => if p.id = k then some p else none

/-- Last successfully loaded product with the given id among the elements,
processed with enumerate index starting at idx. -/
def lastLoaded (gen : Nat → Nat) (idx : Nat) (js : List Json) (k : Nat) :
    Option Product :=
  match js with
  | [] => none
  | j :: rest =>
      match lastLoaded gen (idx + 1) rest k with
      | some q => some q
      | none =>
          match load_item (gen idx) j with
          | .ok p => if p.id = k then some p else none
          | _ => none

/-- Field constraints every stored product satisfies (the invariant the data
model enforces at construction): name 1 to 200 characters, description 1 to
2000, image_url the stored normalization of a valid absolute URL, strictly
positive price of at most two decimal places, rating between 0 and 5, and a
currency that is the Python uppercase image of a three-character string (not
necessarily three characters itself, since uppercasing can expand). -/
def ProductValid (p : Product) : Prop :=
  1 ≤ p.name.length ∧ p.name.length ≤ 200 ∧
  (∃ u0, normalizeHttpUrl u0 = some p.image_url) ∧
  1 ≤ p.description.length ∧ p.description.length ≤ 2000 ∧
  0 < p.price.mant ∧ p.price.scale ≤ 2 ∧
  0 ≤ p.rating ∧ p.rating ≤ 5 ∧
  (∃ c0, c0.length = 3 ∧ p.currency = pyUpper c0)

/-- Constant uuid4 supply for concrete loads whose records all carry ids. -/
def gen0 : Nat → Nat := fun _ => 0

/-- String form of the UUID with integer value 1. -/
def u1 : String := "00000000-0000-0000-0000-000000000001"

/-- Well-formed product record with id 1. -/
def recA : Json :=
  .obj [("id", .str u1), ("name", .str "A"), ("image_url", .str "https://x/1"),
    ("description", .str "d"), ("price", .str "10.00"), ("rating", .int 4)]

/-- Second well-formed record with the same id 1 and different content. -/
def recA2 : Json :=
  .obj [("id", .str u1), ("name", .str "A2"),
    ("image_url", .str "https://x/1b"), ("description", .str "d"),
    ("price", .str "20.00"), ("rating", .int 5)]

/-- Malformed record whose price is not convertible to a decimal: it fails in
the Decimal conversion, not in pydantic validation. -/
def badRec : Json :=
  .obj [("name", .str "B"), ("image_url", .str "https://x/2"),
    ("description", .str "d"), ("price", .str "abc"), ("rating", .int 1)]

/-- Record that passes every pydantic constraint while its price has one
decimal place and its currency contains a digit. -/
def rec8 : Json :=
  .obj [("id", .str u1), ("name", .str "A"), ("image_url", .str "https://x/1"),
    ("description", .str "d"), ("price", .str "10.5"), ("rating", .int 4),
    ("currency", .str "ab1")]

/-- String form of the UUID with integer value 2. -/
def u2 : String := "00000000-0000-0000-0000-000000000002"

/-- Record whose currency is three sharp-s characters: it passes the
length-3 check, and uppercasing expands it to the six-character SSSSSS. -/
def rec8b : Json :=
  .obj [("id", .str u2), ("name", .str "A"), ("image_url", .str "https://x/1"),
    ("description", .str "d"), ("price", .str "10.00"), ("rating", .int 4),
    ("currency", .str "ßßß")]

/-- Sample stored product with id 1. -/
def pA : Product := ⟨1, "A", "https://x/1", "d", ⟨1000, 2⟩, 4, [], "USD"⟩

/-- Sample stored product with id 2. -/
def pB : Product := ⟨2, "B", "https://x/2", "d2", ⟨500, 1⟩, 3, [], "USD"⟩

/-- Sample two-product store. -/
def sampleStore : Store := [(1, pA), (2, pB)]

/- Association list lemmas for the dict model. -/

theorem dictGet_insert_self (s : Store) (k : Nat) (v : Product) :
    dictGet (dictInsert s k v) k = some v := by
  induction s with
  | nil => simp [dictInsert, dictGet]
  | cons kv rest ih =>
      by_cases h : kv.1 = k
      · simp [dictInsert, h, dictGet]
      · simp [dictInsert, h, dictGet, ih]

theorem dictGet_insert_ne (s : Store) (k k2 : Nat) (v : Product)
    (h : k ≠ k2) : dictGet (dictInsert s k v) k2 = dictGet s k2 := by
  induction s with
  | nil => simp [dictInsert, dictGet, h]
  | cons kv rest ih =>
      by_cases hk : kv.1 = k
      · subst hk
        simp [dictInsert, dictGet, h]
      · simp only [dictInsert, if_neg hk]
        by_cases hk2 : kv.1 = k2
        · simp [dictGet, hk2]
        · simp [dictGet, hk2, ih]

theorem mem_keys_dictInsert (s : Store) (k a : Nat) (v : Product) :
    a ∈ (dictInsert s k v).map Prod.fst ↔ a ∈ s.map Prod.fst ∨ a = k := by
  induction s with
  | nil => simp [dictInsert]
  | cons kv rest ih =>
      by_cases hk : kv.1 = k
      · simp [dictInsert, hk]
        tauto
      · simp [dictInsert, hk, ih]
        tauto

theorem nodup_keys_dictInsert (s : Store) (k : Nat) (v : Product)
    (h : (s.map Prod.fst).Nodup) : ((dictInsert s k v).map Prod.fst).Nodup := by
  induction s with
  | nil => simp [dictInsert]
  | cons kv rest ih =>
      simp only [List.map_cons, List.nodup_cons] at h
      by_cases hk : kv.1 = k
      · simp only [dictInsert, if_pos hk, List.map_cons, List.nodup_cons]
        exact ⟨hk ▸ h.1, h.2⟩
      · simp only [dictInsert, if_neg hk, List.map_cons, List.nodup_cons]
        refine ⟨?_, ih h.2⟩
        rw [mem_keys_dictInsert]
        rintro (hmem | heq)
        · exact h.1 hmem
        · exact hk heq

theorem mem_dictInsert (s : Store) (k : Nat) (v : Product) (kv : Nat × Product)
    (h : kv ∈ dictInsert s k v) : kv = (k, v) ∨ kv ∈ s := by
  induction s with
  | nil => simpa [dictInsert] using h
  | cons kv2 rest ih =>
      by_cases hk : kv2.1 = k
      · simp only [dictInsert, if_pos hk, List.mem_cons] at h
        rcases h with h | h
        · exact Or.inl h
        · exact Or.inr (List.mem_cons_of_mem _ h)
      · simp only [dictInsert, if_neg hk, List.mem_cons] at h
        rcases h with h | h
        · exact Or.inr (h ▸ List.mem_cons_self _ _)
        · rcases ih h with h2 | h2
          · exact Or.inl h2
          · exact Or.inr (List.mem_cons_of_mem _ h2)

theorem storeWF_dictInsert (s : Store) (p : Product) (h : StoreWF s) :
    StoreWF (dictInsert s p.id p) := by
  refine ⟨nodup_keys_dictInsert s p.id p h.1, ?_⟩
  intro kv hkv
  rcases mem_dictInsert s p.id p kv hkv with h2 | h2
  · subst h2; rfl
  · exact h.2 kv h2

theorem dictGet_mem (s : Store) (k : Nat) (p : Product)
    (h : dictGet s k = some p) : (k, p) ∈ s := by
  induction s with
  | nil => simp [dictGet] at h
  | cons kv rest ih =>
      obtain ⟨a, b⟩ := kv
      simp only [dictGet] at h
      by_cases hk : a = k
      · subst hk
        simp at h
        subst h
        exact List.mem_cons_self _ _
      · simp only [if_neg hk] at h
        exact List.mem_cons_of_mem _ (ih h)

theorem dictGet_id (s : Store) (hWF : StoreWF s) (k : Nat) (p : Product)
    (h : dictGet s k = some p) : p.id = k :=
  hWF.2 (k, p) (dictGet_mem s k p h)

theorem mem_keys_of_dictGet (s : Store) (k : Nat) (p : Product)
    (h : dictGet s k = some p) : k ∈ s.map Prod.fst :=
  List.mem_map.mpr ⟨(k, p), dictGet_mem s k p h, rfl⟩

theorem dictGet_isSome_iff (s : Store) (k : Nat) :
    (dictGet s k).isSome ↔ k ∈ s.map Prod.fst := by
  induction s with
  | nil => simp [dictGet]
  | cons kv rest ih =>
      by_cases hk : kv.1 = k
      · simp [dictGet, hk]
      · simp [dictGet, hk, ih, Ne.symm hk]

/- Lemmas on the dict comprehension keyed by product id. -/

theorem foldl_dictInsert_get (ps : List Product) (acc : Store) (k : Nat) :
    dictGet (ps.foldl (fun a p => dictInsert a p.id p) acc) k
      = match lastMatch ps k with
        | some q => some q
        | none => dictGet acc k := by
  induction ps generalizing acc with
  | nil => simp [lastMatch]
  | cons p rest ih =>
      simp only [List.foldl_cons, lastMatch]
      rw [ih]
      cases hlm : lastMatch rest k with
      | some q => simp
      | none =>
          simp only []
          by_cases hpk : p.id = k
          · simp only [if_pos hpk]
            rw [hpk, dictGet_insert_self]
          · simp only [if_neg hpk]
            rw [dictGet_insert_ne _ _ _ _ hpk]

theorem productDict_get (ps : List Product) (k : Nat) :
    dictGet (productDict ps) k = lastMatch ps k := by
  unfold productDict
  rw [foldl_dictInsert_get]
  cases lastMatch ps k <;> simp [dictGet]

theorem lastMatch_spec (ps : List Product) (k : Nat) (q : Product)
    (h : lastMatch ps k = some q) : q.id = k ∧ q ∈ ps := by
  induction ps with
  | nil => simp [lastMatch] at h
  | cons p rest ih =>
      cases hlm : lastMatch rest k with
      | some r =>
          simp only [lastMatch, hlm, Option.some.injEq] at h
          subst h
          obtain ⟨h1, h2⟩ := ih hlm
          exact ⟨h1, List.mem_cons_of_mem _ h2⟩
      | none =>
          simp only [lastMatch, hlm] at h
          by_cases hpk : p.id = k
          · simp only [if_pos hpk, Option.some.injEq] at h
            subst h
            exact ⟨hpk, List.mem_cons_self _ _⟩
          · simp [if_neg hpk] at h

theorem lastMatch_isSome_iff (ps : List Product) (k : Nat) :
    (lastMatch ps k).isSome ↔ k ∈ ps.map (fun p => p.id) := by
  induction ps with
  | nil => simp [lastMatch]
  | cons p rest ih =>
      cases hlm : lastMatch rest k with
      | some q =>
          simp only [lastMatch, hlm, List.map_cons, List.mem_cons,
            Option.isSome_some, true_iff]
          right
          rw [← ih, hlm]
          simp
      | none =>
          rw [hlm] at ih
          simp only [Option.isSome_none, Bool.false_eq_true, false_iff] at ih
          simp only [lastMatch, hlm, List.map_cons, List.mem_cons]
          by_cases hpk : p.id = k
          · simp [hpk]
          · simp only [if_neg hpk, Option.isSome_none, Bool.false_eq_true,
              false_iff]
            push_neg
            exact ⟨fun h => hpk h.symm, ih⟩

theorem nodupId_unique (ps : List Product)
    (h : (ps.map (fun p => p.id)).Nodup) (q r : Product)
    (hq : q ∈ ps) (hr : r ∈ ps) (hid : q.id = r.id) : q = r := by
  induction ps with
  | nil => simp at hq
  | cons p rest ih =>
      simp only [List.map_cons, List.nodup_cons] at h
      rcases List.mem_cons.mp hq with hq1 | hq1 <;>
        rcases List.mem_cons.mp hr with hr1 | hr1
      · rw [hq1, hr1]
      · exfalso
        apply h.1
        rw [← hq1, hid]
        exact List.mem_map.mpr ⟨r, hr1, rfl⟩
      · exfalso
        apply h.1
        rw [← hr1, ← hid]
        exact List.mem_map.mpr ⟨q, hq1, rfl⟩
      · exact ih h.2 hq1 hr1

theorem lastMatch_eq_some_iff (ps : List Product) (k : Nat)
    (h : (ps.map (fun p => p.id)).Nodup) (q : Product) :
    lastMatch ps k = some q ↔ q ∈ ps ∧ q.id = k := by
  constructor
  · intro hl
    obtain ⟨h1, h2⟩ := lastMatch_spec ps k q hl
    exact ⟨h2, h1⟩
  · rintro ⟨hmem, hid⟩
    have hs : (lastMatch ps k).isSome := by
      rw [lastMatch_isSome_iff]
      exact List.mem_map.mpr ⟨q, hmem, hid⟩
    obtain ⟨r, hr⟩ := Option.isSome_iff_exists.mp hs
    obtain ⟨hr1, hr2⟩ := lastMatch_spec ps k r hr
    rw [hr]
    congr 1
    exact (nodupId_unique ps h q r hmem hr2 (by rw [hid, hr1])).symm

theorem lastMatch_perm (ps ps2 : List Product) (k : Nat)
    (h : (ps.map (fun p => p.id)).Nodup) (hp : ps.Perm ps2) :
    lastMatch ps k = lastMatch ps2 k := by
  have h2 : (ps2.map (fun p => p.id)).Nodup := ((hp.map _).nodup_iff).mp h
  cases hlm : lastMatch ps2 k with
  | some q =>
      obtain ⟨hq1, hq2⟩ := lastMatch_spec ps2 k q hlm
      exact (lastMatch_eq_some_iff ps k h q).mpr ⟨hp.mem_iff.mpr hq2, hq1⟩
  | none =>
      by_contra hne
      obtain ⟨q, hq⟩ := Option.ne_none_iff_exists.mp hne
      obtain ⟨hq1, hq2⟩ := lastMatch_spec ps k q hq.symm
      have : lastMatch ps2 k = some q :=
        (lastMatch_eq_some_iff ps2 k h2 q).mpr ⟨hp.mem_iff.mp hq2, hq1⟩
      rw [hlm] at this
      exact Option.noConfusion this

/- Lemmas on the modelled set difference. -/

theorem mem_pySetDiffList (xs other : List Nat) (i : Nat) :
    i ∈ pySetDiffList xs other ↔ i ∈ xs ∧ i ∉ other := by
  unfold pySetDiffList
  rw [(List.perm_insertionSort _ _).mem_iff, List.mem_filter, List.mem_dedup]
  simp [List.contains, List.elem_iff]

theorem pySetDiffList_congr (xs o1 o2 : List Nat)
    (h : ∀ i, i ∈ o1 ↔ i ∈ o2) : pySetDiffList xs o1 = pySetDiffList xs o2 := by
  unfold pySetDiffList
  congr 1
  apply List.filter_congr
  intro x _
  simp [List.contains, List.elem_iff, h x]

theorem pySetDiffList_eq_nil (xs other : List Nat)
    (h : ∀ i ∈ xs, i ∈ other) : pySetDiffList xs other = [] := by
  have h2 : (xs.dedup.filter (fun i => ! other.contains i)) = [] := by
    rw [List.filter_eq_nil_iff]
    intro a ha
    simp [List.contains, List.elem_iff]
    exact h a (List.mem_dedup.mp ha)
  unfold pySetDiffList
  rw [h2]
  rfl

theorem nodup_pySetDiffList (xs other : List Nat) :
    (pySetDiffList xs other).Nodup := by
  unfold pySetDiffList
  exact ((List.perm_insertionSort _ _).nodup_iff).mpr
    ((List.nodup_dedup xs).filter _)

/- Length of the deduplicated list detects duplicates. -/

theorem length_dedup_eq_iff (xs : List Nat) :
    xs.length = xs.dedup.length ↔ xs.Nodup := by
  constructor
  · intro h
    have h2 : xs.dedup = xs := (List.dedup_sublist xs).eq_of_length h.symm
    rw [← h2]
    exact List.nodup_dedup xs
  · intro h
    rw [List.dedup_eq_self.mpr h]

/- filterMap helpers. -/

theorem filterMap_id_eq (g : Nat → Option Product) (ids : List Nat)
    (h : ∀ i ∈ ids, ∃ p, g i = some p ∧ p.id = i) :
    ((ids.filterMap g).map (fun p => p.id)) = ids := by
  induction ids with
  | nil => simp
  | cons i rest ih =>
      obtain ⟨p, hp1, hp2⟩ := h i (List.mem_cons_self _ _)
      rw [List.filterMap_cons, hp1]
      simp only [List.map_cons, hp2]
      rw [ih (fun j hj => h j (List.mem_cons_of_mem _ hj))]

theorem filterMap_fun_congr (g1 g2 : Nat → Option Product) (ids : List Nat)
    (h : ∀ i ∈ ids, g1 i = g2 i) : ids.filterMap g1 = ids.filterMap g2 := by
  induction ids with
  | nil => simp
  | cons i rest ih =>
      rw [List.filterMap_cons, List.filterMap_cons,
        h i (List.mem_cons_self _ _),
        ih (fun j hj => h j (List.mem_cons_of_mem _ hj))]


/- Loader lemmas. -/

theorem insertItems_get (gen : Nat → Nat) (js : List Json) (idx : Nat)
    (acc st : Store) (k : Nat) (h : insertItems gen idx js acc = .ok st) :
    dictGet st k
      = match lastLoaded gen idx js k with
        | some q => some q
        | none => dictGet acc k := by
  induction js generalizing idx acc with
  | nil =>
      simp only [insertItems, Except.ok.injEq] at h
      subst h
      simp [lastLoaded]
  | cons j rest ih =>
      cases hli : load_item (gen idx) j with
      | abort =>
          simp only [insertItems, hli] at h
          exact Except.noConfusion h
      | invalid =>
          simp only [insertItems, hli] at h
          rw [ih (idx + 1) acc h]
          simp only [lastLoaded, hli]
          cases lastLoaded gen (idx + 1) rest k <;> simp
      | ok p =>
          simp only [insertItems, hli] at h
          rw [ih (idx + 1) (dictInsert acc p.id p) h]
          simp only [lastLoaded, hli]
          cases lastLoaded gen (idx + 1) rest k with
          | some q => simp
          | none =>
              simp only []
              by_cases hpk : p.id = k
              · rw [if_pos hpk, hpk, dictGet_insert_self]
              · rw [if_neg hpk, dictGet_insert_ne _ _ _ _ hpk]

theorem lastLoaded_cons (gen : Nat → Nat) (idx : Nat) (j : Json)
    (rest : List Json) (k : Nat) :
    lastLoaded gen idx (j :: rest) k
      = match lastLoaded gen (idx + 1) rest k with
        | some q => some q
        | none =>
            match load_item (gen idx) j with
            | .ok p => if p.id = k then some p else none
            | _ => none := rfl

theorem lastLoaded_append (gen : Nat → Nat) (xs ys : List Json) (idx k : Nat) :
    lastLoaded gen idx (xs ++ ys) k
      = match lastLoaded gen (idx + xs.length) ys k with
        | some q => some q
        | none => lastLoaded gen idx xs k := by
  induction xs generalizing idx with
  | nil =>
      simp only [List.nil_append, List.length_nil, Nat.add_zero]
      cases lastLoaded gen idx ys k <;> simp [lastLoaded]
  | cons x rest ih =>
      have hx := ih (idx + 1)
      have harith : idx + 1 + rest.length = idx + (rest.length + 1) := by omega
      rw [harith] at hx
      rw [List.cons_append, lastLoaded_cons, hx, List.length_cons,
        lastLoaded_cons]
      cases lastLoaded gen (idx + (rest.length + 1)) ys k <;>
        cases lastLoaded gen (idx + 1) rest k <;> simp

theorem lastLoaded_eq_none (gen : Nat → Nat) (js : List Json) (idx k : Nat)
    (h : ∀ i (hi : i < js.length) (r : Product),
      load_item (gen (idx + i)) (js.get ⟨i, hi⟩) = .ok r → r.id ≠ k) :
    lastLoaded gen idx js k = none := by
  induction js generalizing idx with
  | nil => simp [lastLoaded]
  | cons j rest ih =>
      have hrest : lastLoaded gen (idx + 1) rest k = none := by
        apply ih
        intro i hi r hr
        have harith : idx + 1 + i = idx + (i + 1) := by omega
        rw [harith] at hr
        exact h (i + 1) (by simpa using Nat.succ_lt_succ hi) r hr
      simp only [lastLoaded, hrest]
      cases hli : load_item (gen idx) j with
      | ok p =>
          have : p.id ≠ k := by
            have h0 := h 0 (by simp) p
            simp only [Nat.add_zero, List.get] at h0
            exact h0 hli
          simp [this]
      | abort => simp
      | invalid => simp

theorem insertItems_WF (gen : Nat → Nat) (js : List Json) (idx : Nat)
    (acc st : Store) (hacc : StoreWF acc)
    (h : insertItems gen idx js acc = .ok st) : StoreWF st := by
  induction js generalizing idx acc with
  | nil =>
      simp only [insertItems, Except.ok.injEq] at h
      subst h
      exact hacc
  | cons j rest ih =>
      cases hli : load_item (gen idx) j with
      | abort =>
          simp only [insertItems, hli] at h
          exact Except.noConfusion h
      | invalid =>
          simp only [insertItems, hli] at h
          exact ih (idx + 1) acc hacc h
      | ok p =>
          simp only [insertItems, hli] at h
          exact ih (idx + 1) _ (storeWF_dictInsert acc p hacc) h

theorem load_products_WF (src : Source) (gen : Nat → Nat) (st : Store)
    (h : load_products src gen = .ok st) : StoreWF st := by
  cases src with
  | absent => simp [load_products] at h
  | unparsable => simp [load_products] at h
  | parsed data =>
      cases data with
      | obj fields =>
          cases hpk : jlookup fields "products" with
          | none => simp [load_products, hpk] at h
          | some v =>
              cases v with
              | arr items =>
                  have h2 : insertItems gen 0 items [] = .ok st := by
                    simpa [load_products, hpk] using h
                  exact insertItems_WF gen items 0 [] st
                    ⟨List.nodup_nil, by simp⟩ h2
              | null => simp [load_products, hpk] at h
              | bool b => simp [load_products, hpk] at h
              | int n => simp [load_products, hpk] at h
              | fnum m sc => simp [load_products, hpk] at h
              | str s2 => simp [load_products, hpk] at h
              | obj fs2 => simp [load_products, hpk] at h
      | null => simp [load_products] at h
      | bool b => simp [load_products] at h
      | int n => simp [load_products] at h
      | fnum m sc => simp [load_products] at h
      | str s2 => simp [load_products] at h
      | arr xs => simp [load_products] at h

/- Validator facts. -/

theorem validName_spec (v : Option Json) (s : String)
    (h : validName v = some s) : 1 ≤ s.length ∧ s.length ≤ 200 := by
  unfold validName at h
  split at h
  · next s2 =>
      split at h
      · next hc =>
          injection h with h
          subst h
          exact hc
      · exact Option.noConfusion h
  · exact Option.noConfusion h

theorem validDescription_spec (v : Option Json) (s : String)
    (h : validDescription v = some s) : 1 ≤ s.length ∧ s.length ≤ 2000 := by
  unfold validDescription at h
  split at h
  · next s2 =>
      split at h
      · next hc =>
          injection h with h
          subst h
          exact hc
      · exact Option.noConfusion h
  · exact Option.noConfusion h

theorem validUrl_spec (v : Option Json) (s : String)
    (h : validUrl v = some s) : ∃ u0, normalizeHttpUrl u0 = some s := by
  unfold validUrl at h
  split at h
  · next s2 => exact ⟨s2, h⟩
  · exact Option.noConfusion h

theorem validPrice_spec (v : Option Dec) (d : Dec)
    (h : validPrice v = some d) : 0 < d.mant ∧ d.scale ≤ 2 := by
  unfold validPrice at h
  split at h
  · next d2 =>
      split at h
      · next hc =>
          injection h with h
          subst h
          exact hc
      · exact Option.noConfusion h
  · exact Option.noConfusion h

theorem validRating_spec (v : Option Json) (r : Rat)
    (h : validRating v = some r) : 0 ≤ r ∧ r ≤ 5 := by
  unfold validRating at h
  split at h
  · next n =>
      split at h
      · next hc =>
          injection h with h
          subst h
          exact ⟨by exact_mod_cast hc.1, by exact_mod_cast hc.2⟩
      · exact Option.noConfusion h
  · next m sc =>
      split at h
      · next hc =>
          injection h with h
          subst h
          exact hc
      · exact Option.noConfusion h
  · next s2 =>
      split at h
      · next d hd =>
          split at h
          · next hc =>
              injection h with h
              subst h
              exact hc
          · exact Option.noConfusion h
      · exact Option.noConfusion h
  · exact Option.noConfusion h

theorem validCurrency_spec (v : Option Json) (c : String)
    (h : validCurrency v = some c) :
    ∃ c0, c0.length = 3 ∧ c = pyUpper c0 := by
  unfold validCurrency at h
  split at h
  · injection h with h
    subst h
    exact ⟨"USD", by decide, by decide⟩
  · next s2 =>
      split at h
      · next hc =>
          injection h with h
          subst h
          exact ⟨s2, hc, rfl⟩
      · exact Option.noConfusion h
  · exact Option.noConfusion h

theorem mkProduct_valid (gen : Nat) (kw : ProductKwargs) (p : Product)
    (h : mkProduct gen kw = some p) : ProductValid p := by
  unfold mkProduct at h
  split at h
  · next i n u d pr r sp c hid hn hu hd hpr hr hsp hc =>
      injection h with h
      subst h
      obtain ⟨hn1, hn2⟩ := validName_spec _ _ hn
      obtain ⟨hd1, hd2⟩ := validDescription_spec _ _ hd
      obtain ⟨hp1, hp2⟩ := validPrice_spec _ _ hpr
      obtain ⟨hr1, hr2⟩ := validRating_spec _ _ hr
      exact ⟨hn1, hn2, validUrl_spec _ _ hu, hd1, hd2, hp1, hp2, hr1, hr2,
        validCurrency_spec _ _ hc⟩
  · exact Option.noConfusion h

theorem load_item_valid (g : Nat) (j : Json) (p : Product)
    (h : load_item g j = .ok p) : ProductValid p := by
  unfold load_item at h
  split at h
  · next fields =>
      split at h
      · next v hv =>
          split at h
          · exact ItemResult.noConfusion h
          · next d hd =>
              split at h
              · next q hq =>
                  injection h with h
                  subst h
                  exact mkProduct_valid _ _ _ hq
              · exact ItemResult.noConfusion h
      · next hv =>
          split at h
          · next q hq =>
              injection h with h
              subst h
              exact mkProduct_valid _ _ _ hq
          · exact ItemResult.noConfusion h
  · exact ItemResult.noConfusion h

theorem insertItems_valid (gen : Nat → Nat) (js : List Json) (idx : Nat)
    (acc st : Store) (hacc : ∀ kv ∈ acc, ProductValid kv.2)
    (h : insertItems gen idx js acc = .ok st) :
    ∀ kv ∈ st, ProductValid kv.2 := by
  induction js generalizing idx acc with
  | nil =>
      simp only [insertItems, Except.ok.injEq] at h
      subst h
      exact hacc
  | cons j rest ih =>
      cases hli : load_item (gen idx) j with
      | abort =>
          simp only [insertItems, hli] at h
          exact Except.noConfusion h
      | invalid =>
          simp only [insertItems, hli] at h
          exact ih (idx + 1) acc hacc h
      | ok p =>
          simp only [insertItems, hli] at h
          refine ih (idx + 1) _ ?_ h
          intro kv hkv
          rcases mem_dictInsert acc p.id p kv hkv with h2 | h2
          · rw [h2]
            exact load_item_valid _ _ _ hli
          · exact hacc kv h2
/- Service-layer reduction lemma: once the shape checks pass, the service is
the missing-check followed by the reordered lookup. -/

theorem get_products_core (repo : List Nat → List Product) (ids : List Nat)
    (ps : List Product) (hps : repo ids = ps) (hne : ids ≠ [])
    (hnd : ids.Nodup) :
    get_products_for_comparison repo ids =
      (if pySetDiffList ids (ps.map (fun p => p.id)) ≠ [] then
        .error (.notFound (pySetDiffList ids (ps.map (fun p => p.id))))
      else
        .ok (ids.filterMap (fun pid => dictGet (productDict ps) pid))) := by
  subst hps
  unfold get_products_for_comparison
  rw [if_neg hne, if_neg (fun hc => hc ((length_dedup_eq_iff ids).mpr hnd))]

/-- C5: repository construction fails with StoreUnavailable when the backing
file is absent and when it cannot be parsed as JSON, and with the distinct
kind InvalidData when the parsed top-level value is not an object containing
a products key or when the products value is not an array. -/
theorem c5_construction_errors :
    (∀ gen, load_products .absent gen = .error .storeUnavailable)
    ∧ (∀ gen, load_products .unparsable gen = .error .storeUnavailable)
    ∧ (∀ gen (data : Json), (∀ fields, data ≠ .obj fields) →
        load_products (.parsed data) gen = .error .invalidData)
    ∧ (∀ gen fields, jlookup fields "products" = none →
        load_products (.parsed (.obj fields)) gen = .error .invalidData)
    ∧ (∀ gen fields v, jlookup fields "products" = some v →
        (∀ items, v ≠ .arr items) →
        load_products (.parsed (.obj fields)) gen = .error .invalidData) := by
  refine ⟨fun gen => rfl, fun gen => rfl, ?_, ?_, ?_⟩
  · intro gen data h
    cases data with
    | obj fs => exact absurd rfl (h fs)
    | null => rfl
    | bool b => rfl
    | int n => rfl
    | fnum m sc => rfl
    | str s2 => rfl
    | arr xs => rfl
  · intro gen fields h
    simp [load_products, h]
  · intro gen fields v h hv
    cases v with
    | arr items => exact absurd rfl (hv items)
    | null => simp [load_products, h]
    | bool b => simp [load_products, h]
    | int n => simp [load_products, h]
    | fnum m sc => simp [load_products, h]
    | str s2 => simp [load_products, h]
    | obj fs2 => simp [load_products, h]

/-- C5 witness: the construction errors at concrete sources. -/
theorem c5_witness :
    load_products .absent gen0 = .error .storeUnavailable
    ∧ load_products .unparsable gen0 = .error .storeUnavailable
    ∧ load_products (.parsed (.arr [])) gen0 = .error .invalidData
    ∧ load_products (.parsed (.obj [("items", .arr [])])) gen0
        = .error .invalidData
    ∧ load_products (.parsed (.obj [("products", .int 7)])) gen0
        = .error .invalidData :=
  ⟨c5_construction_errors.1 gen0,
    c5_construction_errors.2.1 gen0,
    c5_construction_errors.2.2.1 gen0 (.arr [])
      (fun fields h => Json.noConfusion h),
    c5_construction_errors.2.2.2.1 gen0 [("items", .arr [])] rfl,
    c5_construction_errors.2.2.2.2 gen0 [("products", .int 7)] (.int 7) rfl
      (fun items h => Json.noConfusion h)⟩

/-- C6: the comparison service fails with InvalidRequest exactly when the
request is empty or contains a repeated identifier (detected by comparing the
length of the sequence with the size of its deduplication), whatever the
repository answers, so the rejection precedes any use of the store; no other
input produces InvalidRequest. -/
theorem c6_invalid_request_iff (repo : List Nat → List Product)
    (ids : List Nat) :
    (∃ m, get_products_for_comparison repo ids = .error (.invalidRequest m))
      ↔ (ids = [] ∨ ¬ ids.Nodup) := by
  by_cases h1 : ids = []
  · subst h1
    simp [get_products_for_comparison]
  · by_cases h2 : ids.Nodup
    · rw [get_products_core repo ids (repo ids) rfl h1 h2]
      constructor
      · rintro ⟨m, hm⟩
        by_cases h3 :
            pySetDiffList ids ((repo ids).map (fun p => p.id)) ≠ []
        · rw [if_pos h3] at hm
          simp at hm
        · rw [if_neg h3] at hm
          simp at hm
      · rintro (h | h)
        · exact absurd h h1
        · exact absurd h2 h
    · have hlen : ids.length ≠ ids.dedup.length :=
        fun hc => h2 ((length_dedup_eq_iff ids).mp hc)
      have hres : get_products_for_comparison repo ids
          = .error (.invalidRequest "Product IDs must be unique") := by
        unfold get_products_for_comparison
        rw [if_neg h1, if_pos hlen]
      rw [hres]
      simp [h2]

/-- C10: find_by_ids returns, in exactly the requested order, one entry per
occurrence of each present identifier (so a repeated present id is repeated
in the result), each entry being the stored product, and silently omits the
absent identifiers. -/
theorem c10_find_by_ids_spec (store : Store) (hWF : StoreWF store)
    (ids : List Nat) :
    (find_by_ids store ids).map (fun p => p.id)
        = ids.filter (fun i => (dictGet store i).isSome)
      ∧ ∀ p ∈ find_by_ids store ids, dictGet store p.id = some p := by
  constructor
  · induction ids with
    | nil => simp [find_by_ids]
    | cons i rest ih =>
        cases hd : dictGet store i with
        | none =>
            simp only [find_by_ids, List.filterMap_cons, hd,
              List.filter_cons, Option.isSome_none]
            simpa [find_by_ids] using ih
        | some p =>
            have hip : p.id = i := dictGet_id store hWF i p hd
            simp only [find_by_ids, List.filterMap_cons, hd,
              List.filter_cons, Option.isSome_some, List.map_cons, hip]
            simpa [find_by_ids] using ih
  · intro p hp
    obtain ⟨a, ha1, ha2⟩ := List.mem_filterMap.mp hp
    rw [dictGet_id store hWF a p ha2]
    exact ha2

/-- Sample store well-formedness. -/
theorem sampleStore_WF : StoreWF sampleStore :=
  ⟨by decide, by decide⟩

/-- C10 witness: a request with a repeated present id, a fresh id and an
absent id against the sample store. -/
theorem c10_witness :
    ((find_by_ids sampleStore [2, 1, 2, 5]).map (fun p => p.id)
        = [2, 1, 2, 5].filter (fun i => (dictGet sampleStore i).isSome))
      ∧ ∀ p ∈ find_by_ids sampleStore [2, 1, 2, 5],
          dictGet sampleStore p.id = some p :=
  c10_find_by_ids_spec sampleStore sampleStore_WF [2, 1, 2, 5]
/-- C1: when every requested identifier is present in the store, a valid
(non-empty, duplicate-free) comparison request succeeds with products whose
identifiers are exactly the requested sequence in the requested order, and
the outcome is unchanged under any permutation of the sequence the
repository returned. -/
theorem c1_comparison_order (store : Store) (hWF : StoreWF store)
    (ids : List Nat) (hne : ids ≠ []) (hnd : ids.Nodup)
    (hall : ∀ i ∈ ids, (dictGet store i).isSome) :
    (∃ ps, get_products_for_comparison (find_by_ids store) ids = .ok ps
        ∧ ps.map (fun p => p.id) = ids)
    ∧ ∀ returned, (find_by_ids store ids).Perm returned →
        get_products_for_comparison (fun _ => returned) ids
          = get_products_for_comparison (find_by_ids store) ids := by
  have hex : ∀ i ∈ ids, ∃ p, dictGet store i = some p ∧ p.id = i := by
    intro i hi
    obtain ⟨p, hp⟩ := Option.isSome_iff_exists.mp (hall i hi)
    exact ⟨p, hp, dictGet_id store hWF i p hp⟩
  have hmap : (find_by_ids store ids).map (fun p => p.id) = ids :=
    filterMap_id_eq _ ids hex
  have hmiss :
      pySetDiffList ids ((find_by_ids store ids).map (fun p => p.id)) = [] := by
    rw [hmap]
    exact pySetDiffList_eq_nil ids ids (fun i hi => hi)
  have hnd2 : ((find_by_ids store ids).map (fun p => p.id)).Nodup := by
    rw [hmap]
    exact hnd
  constructor
  · rw [get_products_core _ ids (find_by_ids store ids) rfl hne hnd, hmiss]
    rw [if_neg (by simp)]
    refine ⟨_, rfl, ?_⟩
    apply filterMap_id_eq
    intro i hi
    have hkmem : i ∈ (find_by_ids store ids).map (fun p => p.id) := by
      rw [hmap]
      exact hi
    obtain ⟨q, hq⟩ := Option.isSome_iff_exists.mp
      ((lastMatch_isSome_iff (find_by_ids store ids) i).mpr hkmem)
    obtain ⟨hq1, _⟩ := lastMatch_spec _ _ _ hq
    refine ⟨q, ?_, hq1⟩
    rw [productDict_get]
    exact hq
  · intro returned hperm
    rw [get_products_core (fun _ => returned) ids returned rfl hne hnd,
      get_products_core (find_by_ids store) ids (find_by_ids store ids) rfl
        hne hnd]
    have hmem : ∀ i, (i ∈ returned.map (fun p => p.id))
        ↔ i ∈ (find_by_ids store ids).map (fun p => p.id) :=
      fun i => (hperm.map (fun p => p.id)).mem_iff.symm
    rw [pySetDiffList_congr ids _ _ hmem]
    by_cases h3 :
        pySetDiffList ids ((find_by_ids store ids).map (fun p => p.id)) ≠ []
    · rw [if_pos h3, if_pos h3]
    · rw [if_neg h3, if_neg h3]
      congr 1
      apply filterMap_fun_congr
      intro i hi
      rw [productDict_get, productDict_get]
      exact (lastMatch_perm (find_by_ids store ids) returned i hnd2 hperm).symm

/-- C1 witness: both orders of the two present identifiers succeed in
request order on the sample store. -/
theorem c1_witness :
    (∃ ps, get_products_for_comparison (find_by_ids sampleStore) [2, 1]
        = .ok ps ∧ ps.map (fun p => p.id) = [2, 1])
    ∧ ∀ returned, (find_by_ids sampleStore [2, 1]).Perm returned →
        get_products_for_comparison (fun _ => returned) [2, 1]
          = get_products_for_comparison (find_by_ids sampleStore) [2, 1] :=
  c1_comparison_order sampleStore sampleStore_WF [2, 1] (by decide)
    (by decide) (by decide)

/-- C2: a non-empty duplicate-free request containing at least one absent
identifier always fails with NotFound; no product list is returned. -/
theorem c2_all_or_nothing (store : Store) (hWF : StoreWF store)
    (ids : List Nat) (hne : ids ≠ []) (hnd : ids.Nodup) (i0 : Nat)
    (hmem : i0 ∈ ids) (habs : dictGet store i0 = none) :
    ∃ l, get_products_for_comparison (find_by_ids store) ids
      = .error (.notFound l) := by
  have hnot : i0 ∉ (find_by_ids store ids).map (fun p => p.id) := by
    intro hc
    obtain ⟨p, hp1, hp2⟩ := List.mem_map.mp hc
    obtain ⟨a, ha1, ha2⟩ := List.mem_filterMap.mp hp1
    rw [dictGet_id store hWF a p ha2] at hp2
    subst hp2
    rw [ha2] at habs
    exact Option.noConfusion habs
  have hin : i0 ∈ pySetDiffList ids
      ((find_by_ids store ids).map (fun p => p.id)) :=
    (mem_pySetDiffList _ _ i0).mpr ⟨hmem, hnot⟩
  rw [get_products_core _ ids (find_by_ids store ids) rfl hne hnd,
    if_pos (List.ne_nil_of_mem hin)]
  exact ⟨_, rfl⟩

/-- C2 witness: requesting one present and one absent identifier fails with
NotFound on the sample store. -/
theorem c2_witness :
    ∃ l, get_products_for_comparison (find_by_ids sampleStore) [1, 3]
      = .error (.notFound l) :=
  c2_all_or_nothing sampleStore sampleStore_WF [1, 3] (by decide) (by decide)
    3 (by decide) rfl

/-- C4 counterexample: with an empty store, requesting the identifiers 9 and
2 (in this order) produces a NotFound message that joins the missing ids in
the iteration order of the CPython set difference, 9 before 2 (slots 1 and 2
of the small hash table), which is not sorted; the claim that the missing
identifiers are sorted before joining fails here. -/
theorem c4_counterexample :
    get_products_for_comparison (find_by_ids ([] : Store)) [9, 2]
        = .error (.notFound [9, 2])
      ∧ ¬ List.Pairwise (fun a b => a ≤ b) [9, 2] := by
  constructor
  · rfl
  · decide

/-- C4 amended: the NotFound message of a failed comparison enumerates
exactly the requested identifiers that are absent from the store, each once
(in the set-iteration order the code joins them, which is deterministic for
a given store and request but not sorted). -/
theorem c4_missing_enumeration (store : Store) (hWF : StoreWF store)
    (ids l : List Nat)
    (h : get_products_for_comparison (find_by_ids store) ids
      = .error (.notFound l)) :
    l.Nodup ∧ ∀ i, i ∈ l ↔ (i ∈ ids ∧ dictGet store i = none) := by
  by_cases h1 : ids = []
  · subst h1
    simp [get_products_for_comparison] at h
  · by_cases h2 : ids.Nodup
    · rw [get_products_core _ ids (find_by_ids store ids) rfl h1 h2] at h
      by_cases h3 :
          pySetDiffList ids ((find_by_ids store ids).map (fun p => p.id)) ≠ []
      · rw [if_pos h3] at h
        have hl : pySetDiffList ids
            ((find_by_ids store ids).map (fun p => p.id)) = l :=
          ServiceError.notFound.inj (Except.error.inj h)
        subst hl
        refine ⟨nodup_pySetDiffList _ _, ?_⟩
        intro i
        rw [mem_pySetDiffList]
        constructor
        · rintro ⟨hi, hnotf⟩
          refine ⟨hi, ?_⟩
          cases hd : dictGet store i with
          | none => rfl
          | some p =>
              exfalso
              apply hnotf
              have hpmem : p ∈ find_by_ids store ids :=
                List.mem_filterMap.mpr ⟨i, hi, hd⟩
              exact List.mem_map.mpr ⟨p, hpmem, dictGet_id store hWF i p hd⟩
        · rintro ⟨hi, hnone⟩
          refine ⟨hi, ?_⟩
          intro hc
          obtain ⟨p, hp1, hp2⟩ := List.mem_map.mp hc
          obtain ⟨a, ha1, ha2⟩ := List.mem_filterMap.mp hp1
          rw [dictGet_id store hWF a p ha2] at hp2
          subst hp2
          rw [ha2] at hnone
          exact Option.noConfusion hnone
      · rw [if_neg h3] at h
        exact absurd h (by simp)
    · have hlen : ids.length ≠ ids.dedup.length :=
        fun hc => h2 ((length_dedup_eq_iff ids).mp hc)
      unfold get_products_for_comparison at h
      rw [if_neg h1, if_pos hlen] at h
      simp at h

/-- C4 amended witness: on the sample store, requesting ids 1 and 3 fails
naming exactly the absent id 3, once. -/
theorem c4_missing_enumeration_witness :
    ([3] : List Nat).Nodup
      ∧ ∀ i, i ∈ ([3] : List Nat)
          ↔ (i ∈ [1, 3] ∧ dictGet sampleStore i = none) :=
  c4_missing_enumeration sampleStore sampleStore_WF [1, 3] [3] rfl
/-- Product the loader builds from recA. -/
def loadedA : Product :=
  ⟨1, "A", "https://x/1", "d", ⟨1000, 2⟩, ((4 : Int) : Rat), [], "USD"⟩

/-- Product the loader builds from recA2. -/
def loadedA2 : Product :=
  ⟨1, "A2", "https://x/1b", "d", ⟨2000, 2⟩, ((5 : Int) : Rat), [], "USD"⟩

/-- Product the loader builds from rec8. -/
def loaded8 : Product :=
  ⟨1, "A", "https://x/1", "d", ⟨105, 1⟩, ((4 : Int) : Rat), [], "AB1"⟩

/-- Product the loader builds from rec8b: its stored currency has six
characters. -/
def loaded8b : Product :=
  ⟨2, "A", "https://x/1", "d", ⟨1000, 2⟩, ((4 : Int) : Rat), [], "SSSSSS"⟩

/-- C3: documented per-record failure isolation is broken by the price
conversion: the well-formed record alone loads into a store of size 1, but
adding one malformed record whose price is not convertible to a decimal
makes the whole load fail with a RepositoryException instead of skipping the
record (the Decimal conversion raises outside the ValidationError handler). -/
theorem c3_price_conversion_aborts_load :
    load_products (.parsed (.obj [("products", .arr [recA])])) gen0
        = .ok [(1, loadedA)]
      ∧ load_products (.parsed (.obj [("products", .arr [recA, badRec])])) gen0
          = .error .storeUnavailable :=
  ⟨rfl, rfl⟩

/-- C7: when two or more valid records carry the same identifier, the store
holds under that identifier the product built from the latest such record in
the sequence, and its key is counted once. -/
theorem c7_last_write_wins (gen : Nat → Nat) (pre post : List Json) (j : Json)
    (store : Store) (n : Nat) (p q : Product) (i : Nat) (hi : i < pre.length)
    (hload :
      load_products (.parsed (.obj [("products", .arr (pre ++ j :: post))]))
        gen = .ok store)
    (hj : load_item (gen pre.length) j = .ok p) (hpn : p.id = n)
    (hq : load_item (gen i) (pre.get ⟨i, hi⟩) = .ok q) (hqn : q.id = n)
    (hpost : ∀ k (hk : k < post.length) (r : Product),
        load_item (gen (pre.length + 1 + k)) (post.get ⟨k, hk⟩) = .ok r →
          r.id ≠ n) :
    dictGet store n = some p ∧ (store.map Prod.fst).count n = 1 := by
  have hpk : jlookup [("products", Json.arr (pre ++ j :: post))] "products"
      = some (.arr (pre ++ j :: post)) := rfl
  have hins : insertItems gen 0 (pre ++ j :: post) [] = .ok store := by
    simpa [load_products, hpk] using hload
  have hpostnone : lastLoaded gen (pre.length + 1) post n = none :=
    lastLoaded_eq_none gen post (pre.length + 1) n hpost
  have hcons : lastLoaded gen (0 + pre.length) (j :: post) n = some p := by
    rw [Nat.zero_add, lastLoaded_cons, hpostnone]
    simp [hj, hpn]
  have hlast : lastLoaded gen 0 (pre ++ j :: post) n = some p := by
    rw [lastLoaded_append, hcons]
  have hget := insertItems_get gen (pre ++ j :: post) 0 [] store n hins
  rw [hlast] at hget
  have hfinal : dictGet store n = some p := hget
  have hWFst : StoreWF store :=
    insertItems_WF gen _ 0 [] store ⟨List.nodup_nil, by simp⟩ hins
  exact ⟨hfinal, List.count_eq_one_of_mem hWFst.1
    (mem_keys_of_dictGet store n p hfinal)⟩

/-- C7 witness: loading two valid records with the same id keeps the product
of the second record, and the key occurs once. -/
theorem c7_witness :
    load_products (.parsed (.obj [("products", .arr [recA, recA2])])) gen0
        = .ok [(1, loadedA2)]
      ∧ load_item (gen0 1) recA2 = .ok loadedA2
      ∧ (dictGet [(1, loadedA2)] 1 = some loadedA2
        ∧ (([(1, loadedA2)] : Store).map Prod.fst).count 1 = 1) := by
  refine ⟨rfl, rfl, ?_⟩
  exact c7_last_write_wins gen0 [recA] [] recA2 [(1, loadedA2)] 1 loadedA2
    loadedA 0 (by decide) rfl rfl rfl rfl rfl
    (fun k hk r _ => absurd hk (Nat.not_lt_zero k))

/-- Successful construction always goes through the per-record loop on the
products array of the top-level object. -/
theorem load_products_ok (src : Source) (gen : Nat → Nat) (store : Store)
    (h : load_products src gen = .ok store) :
    ∃ fields items, src = .parsed (.obj fields)
      ∧ jlookup fields "products" = some (.arr items)
      ∧ insertItems gen 0 items [] = .ok store := by
  cases src with
  | absent => simp [load_products] at h
  | unparsable => simp [load_products] at h
  | parsed data =>
      cases data with
      | obj fields =>
          cases hpk : jlookup fields "products" with
          | none => simp [load_products, hpk] at h
          | some v =>
              cases v with
              | arr items =>
                  refine ⟨fields, items, rfl, hpk, ?_⟩
                  simpa [load_products, hpk] using h
              | null => simp [load_products, hpk] at h
              | bool b => simp [load_products, hpk] at h
              | int n => simp [load_products, hpk] at h
              | fnum m sc => simp [load_products, hpk] at h
              | str s2 => simp [load_products, hpk] at h
              | obj fs2 => simp [load_products, hpk] at h
      | null => simp [load_products] at h
      | bool b => simp [load_products] at h
      | int n => simp [load_products] at h
      | fnum m sc => simp [load_products] at h
      | str s2 => simp [load_products] at h
      | arr xs => simp [load_products] at h

/-- C8 amended: every product held by a successfully constructed store
satisfies the field constraints enforced at load time, with the bounds the
code actually checks: the price has at most (not exactly) two decimal
places, the stored image_url is the normalization of a valid absolute URL,
and the currency is the Python uppercase image of a three-character string,
which need be neither letters nor three characters after uppercasing. -/
theorem c8_store_invariant (src : Source) (gen : Nat → Nat) (store : Store)
    (h : load_products src gen = .ok store) :
    ∀ kv ∈ store, ProductValid kv.2 := by
  obtain ⟨fields, items, hsrc, hpk, hins⟩ := load_products_ok src gen store h
  exact insertItems_valid gen items 0 [] store (by simp) hins

/-- C8 witness: the invariant at a concrete loaded store. -/
theorem c8_store_invariant_witness :
    load_products (.parsed (.obj [("products", .arr [recA])])) gen0
        = .ok [(1, loadedA)]
      ∧ ∀ kv ∈ ([(1, loadedA)] : Store), ProductValid kv.2 :=
  ⟨rfl, c8_store_invariant (.parsed (.obj [("products", .arr [recA])])) gen0
    [(1, loadedA)] rfl⟩

/-- C8 counterexample: a record with price 10.5 (one fractional digit) and
currency ab1 (a digit among three characters) and a record whose currency is
three sharp-s characters (stored uppercased as the six-character SSSSSS) are
both accepted and stored, so stored products need not have exactly two
fractional digits, nor a currency made of letters, nor even a
three-character currency. -/
theorem c8_counterexample :
    load_products (.parsed (.obj [("products", .arr [rec8, rec8b])])) gen0
        = .ok [(1, loaded8), (2, loaded8b)]
      ∧ dictGet [(1, loaded8), (2, loaded8b)] 1 = some loaded8
      ∧ dictGet [(1, loaded8), (2, loaded8b)] 2 = some loaded8b
      ∧ loaded8.price.scale = 1
      ∧ loaded8.currency = "AB1"
      ∧ loaded8b.currency = "SSSSSS"
      ∧ loaded8.price.scale ≠ 2
      ∧ ¬(∀ c ∈ loaded8.currency.data, c.isAlpha = true)
      ∧ loaded8b.currency.length ≠ 3 :=
  ⟨rfl, rfl, rfl, rfl, rfl, rfl, by decide, by decide, by decide⟩

/-- Inversion helper for an if with a decidable proposition condition. -/
theorem if_prop_some {α : Type} (c : Prop) [Decidable c] (a x : α)
    (h : (if c then some a else none) = some x) : c ∧ x = a := by
  by_cases hc : c
  · rw [if_pos hc] at h
    exact ⟨hc, (Option.some.inj h).symm⟩
  · rw [if_neg hc] at h
    exact Option.noConfusion h

/-- C9 counterexample: a record whose image URL has an uppercase host and no
path is accepted, but reading the field back yields the normalized form
https://x/ rather than the supplied https://X, so the image_url field is not
preserved unchanged. -/
theorem c9_counterexample :
    mkProduct 0 ⟨some (.str u1), some (.str "A"), some (.str "https://X"),
        some (.str "d"), some ⟨1000, 2⟩, some (.int 4), none, none⟩
      = some ⟨1, "A", "https://x/", "d", ⟨1000, 2⟩, ((4 : Int) : Rat), [],
          "USD"⟩
      ∧ ("https://x/" : String) ≠ "https://X" :=
  ⟨rfl, by decide⟩

/-- C9 amended: constructing a product from a valid record preserves every
field of the normalized input: the id is the parsed identifier; name,
description, price (to its exact decimal digits) and the coerced rating are
unchanged; the stored image_url is the normalized form of the supplied URL
(lowercased host, slash appended to a bare authority), not necessarily the
verbatim input; specifications default to the empty mapping; and the
currency is the uppercased input, defaulting to USD when absent. -/
theorem c9_construction_roundtrip (gen : Nat) (sid nm url ds : String)
    (price : Dec) (rjson : Json) (r : Rat)
    (sp : Option (List (String × Json))) (cur : Option String) (p : Product)
    (h : mkProduct gen ⟨some (.str sid), some (.str nm), some (.str url),
        some (.str ds), some price, some rjson, sp.map .obj,
        cur.map .str⟩ = some p)
    (hr : validRating (some rjson) = some r) :
    (∀ n, parseUUID sid = some n → p.id = n)
    ∧ p.name = nm ∧ normalizeHttpUrl url = some p.image_url
    ∧ p.description = ds
    ∧ p.price = price ∧ p.rating = r
    ∧ p.specifications = sp.getD []
    ∧ p.currency = pyUpper (cur.getD "USD") := by
  unfold mkProduct at h
  split at h
  · next i n u d pr r2 sp2 c hid hn hu hd hpr hr2 hsp hc =>
      injection h with h
      subst h
      refine ⟨?_, ?_, ?_, ?_, ?_, ?_, ?_, ?_⟩
      · intro n2 hn2
        simp only [validId] at hid
        rw [hid] at hn2
        exact Option.some.inj hn2
      · simp only [validName] at hn
        exact (if_prop_some _ _ _ hn).2
      · simp only [validUrl] at hu
        exact hu
      · simp only [validDescription] at hd
        exact (if_prop_some _ _ _ hd).2
      · simp only [validPrice] at hpr
        exact (if_prop_some _ _ _ hpr).2
      · exact Option.some.inj (hr2.symm.trans hr)
      · cases sp with
        | none =>
            simp only [Option.map_none, validSpecs] at hsp
            simp [← Option.some.inj hsp]
        | some l =>
            simp only [Option.map_some, validSpecs] at hsp
            simp [← Option.some.inj hsp]
      · cases cur with
        | none =>
            simp only [Option.map_none, validCurrency] at hc
            have hcu : c = "USD" := (Option.some.inj hc).symm
            subst hcu
            show ("USD" : String) = pyUpper (Option.getD none "USD")
            decide
        | some cs =>
            simp only [Option.map_some, validCurrency] at hc
            simpa using ((if_prop_some _ _ _ hc).2)
  · exact Option.noConfusion h

/-- C9 witness: constructing a product from a concrete valid record reads
back every field, with the already-normalized URL read back as itself and
the currency defaulting to USD. -/
theorem c9_witness :
    mkProduct 0 ⟨some (.str u1), some (.str "A"), some (.str "https://x/1"),
        some (.str "d"), some ⟨1000, 2⟩, some (.int 4),
        Option.map Json.obj none, Option.map Json.str none⟩ = some loadedA
      ∧ ((∀ n, parseUUID u1 = some n → loadedA.id = n)
        ∧ loadedA.name = "A"
        ∧ normalizeHttpUrl "https://x/1" = some loadedA.image_url
        ∧ loadedA.description = "d" ∧ loadedA.price = ⟨1000, 2⟩
        ∧ loadedA.rating = ((4 : Int) : Rat)
        ∧ loadedA.specifications = Option.getD none []
        ∧ loadedA.currency = pyUpper (Option.getD none "USD")) :=
  ⟨rfl, c9_construction_roundtrip 0 u1 "A" "https://x/1" "d" ⟨1000, 2⟩
    (.int 4) ((4 : Int) : Rat) none none loadedA rfl rfl⟩

end ProductComparison
